import Mathlib

/-!
Verification development for the Sobel-Morphostructure-KZ repository.

The repository consists of Google Earth Engine (GEE) scripts:
scripts/SOBEL.js (Sobel gradient, percentile threshold, orientation,
orientation histogram, fault-buffer overlap metrics), scripts/SOBI.js
(a divergent slope-based variant), and ENRICHMENT.js (deposit flagging,
area shares, enrichment index, distance transforms, percentile trade-off).

The shallow embedding below models the numeric pipeline over exact
rationals.  Platform primitives are modelled by their documented GEE
semantics, each noted in a doc comment at its definition:
division returns 0 on a zero divisor; sampling a self-masked image at a
masked or out-of-extent location yields no value; fastDistanceTransform
returns the squared distance in pixels to the nearest non-zero pixel of
its input, saturated at the square of the neighborhood parameter.
-/

namespace SobelKZ

/-- Earth Engine division semantics, used by every divide call in both
scripts: dividing by zero returns zero instead of faulting. -/
def eeDiv (a b : ℚ) : ℚ := if b = 0 then 0 else a / b

/-- The Earth Engine divide agrees with rational field division, which also
sends division by zero to zero. -/
lemma eeDiv_eq_div (a b : ℚ) : eeDiv a b = a / b := by
  unfold eeDiv
  by_cases h : b = 0
  · simp [h]
  · simp [h]

/-- Real-remainder modulo on rationals, the semantics of the mod calls on
Earth Engine numbers and images in SOBEL.js lines 46 and 47. -/
def fmod (x y : ℚ) : ℚ := x - y * ⌊x / y⌋

lemma fmod_rep (x : ℚ) {y : ℚ} (hy : y ≠ 0) :
    fmod x y = y * (x / y - ⌊x / y⌋) := by
  unfold fmod
  field_simp

lemma fmod_nonneg (x : ℚ) {y : ℚ} (hy : 0 < y) : 0 ≤ fmod x y := by
  rw [fmod_rep x (ne_of_gt hy)]
  have h1 : (⌊x / y⌋ : ℚ) ≤ x / y := Int.floor_le (x / y)
  nlinarith

lemma fmod_lt (x : ℚ) {y : ℚ} (hy : 0 < y) : fmod x y < y := by
  rw [fmod_rep x (ne_of_gt hy)]
  have h1 : x / y < ⌊x / y⌋ + 1 := Int.lt_floor_add_one (x / y)
  nlinarith

/-- Adding an integer multiple of the modulus does not change the remainder. -/
lemma fmod_add_int_mul (x : ℚ) {y : ℚ} (n : ℤ) (hy : y ≠ 0) :
    fmod (x + n * y) y = fmod x y := by
  unfold fmod
  have hdiv : (x + n * y) / y = x / y + n := by
    field_simp
  rw [hdiv, Int.floor_add_int]
  push_cast
  ring

/-- Reducing modulo 360 first and modulo 180 afterwards is the same as
reducing modulo 180 directly. -/
lemma fmod_360_180 (x : ℚ) : fmod (fmod x 360) 180 = fmod x 180 := by
  have h1 : fmod x 360 = x + ((-2 * ⌊x / 360⌋ : ℤ) : ℚ) * 180 := by
    unfold fmod
    push_cast
    ring
  rw [h1, fmod_add_int_mul x (-2 * ⌊x / 360⌋) (by norm_num)]

/-- Shifting by one full turn before reducing modulo 180 is also the same as
reducing modulo 180 directly; 360 is two times the modulus. -/
lemma fmod_add_360 (x : ℚ) : fmod (x + 360) 180 = fmod x 180 := by
  have h1 : x + 360 = x + ((2 : ℤ) : ℚ) * 180 := by norm_num
  rw [h1, fmod_add_int_mul x 2 (by norm_num)]

/-- SOBEL.js line 46: the raw gradient angle in degrees is shifted by one
full turn and reduced to the half circle. -/
def thetaHalf (theta : ℚ) : ℚ := fmod (theta + 360) 180

/-- SOBEL.js line 47: the half-circle angle is rotated by 90 degrees and
folded back into the half circle; this is the per-cell orientation value. -/
def orientationVal (theta : ℚ) : ℚ := fmod (thetaHalf theta + 90) 180

/-- Orientation of one cell as the code reports it: the updateMask call on
SOBEL.js line 47 leaves the value absent on unmasked cells. -/
def orientationAt (masked : Bool) (theta : ℚ) : Option ℚ :=
  if masked then some (orientationVal theta) else none

/-- Orientation computed literally as the specification words it: the raw
angle normalized to the range from 0 to 360, reduced modulo 180, rotated by
90 degrees and folded into the half circle. -/
def specOrientation (theta : ℚ) : ℚ := fmod (fmod (fmod theta 360) 180 + 90) 180

/-- C4: for every cell with valid gradients, the reported orientation equals
the specification formula (normalize the atan2 angle in degrees to the range
from 0 to 360, reduce modulo 180, add 90, reduce modulo 180); the value lies
in the half-open interval from 0 to 180 for every masked cell and is absent
for every unmasked cell.  The identity holds for every rational angle, so in
particular for every value of atan2 in degrees. -/
theorem C4_orientation :
    ∀ theta : ℚ,
      orientationAt true theta = some (specOrientation theta) ∧
      orientationAt false theta = none ∧
      0 ≤ orientationVal theta ∧ orientationVal theta < 180 := by
  intro theta
  refine ⟨?_, rfl, fmod_nonneg _ (by norm_num), fmod_lt _ (by norm_num)⟩
  have h : orientationVal theta = specOrientation theta := by
    unfold orientationVal specOrientation thetaHalf
    rw [fmod_360_180, fmod_add_360]
  rw [orientationAt, h]
  simp

/-- The horizontal Sobel derivative, the convolution of the elevation grid
with the kernel kx of SOBEL.js line 23, in correlation form with the row
index increasing downward. -/
def sobelGx (dem : ℤ → ℤ → ℚ) (x y : ℤ) : ℚ :=
  (dem (x + 1) (y - 1) - dem (x - 1) (y - 1)) +
    2 * (dem (x + 1) y - dem (x - 1) y) +
    (dem (x + 1) (y + 1) - dem (x - 1) (y + 1))

/-- The vertical Sobel derivative, the convolution of the elevation grid
with the kernel ky of SOBEL.js line 24, in correlation form with the row
index increasing downward. -/
def sobelGy (dem : ℤ → ℤ → ℚ) (x y : ℤ) : ℚ :=
  (dem (x - 1) (y + 1) - dem (x - 1) (y - 1)) +
    2 * (dem x (y + 1) - dem x (y - 1)) +
    (dem (x + 1) (y + 1) - dem (x + 1) (y - 1))

/-- The squared Sobel gradient magnitude of SOBEL.js line 27 and
ENRICHMENT.js line 61; the script takes its square root, a strictly
monotone map that preserves every threshold comparison used downstream. -/
def sobelMagSq (dem : ℤ → ℤ → ℚ) (x y : ℤ) : ℚ :=
  sobelGx dem x y ^ 2 + sobelGy dem x y ^ 2

/-- One raster cell of the analysis region: its Sobel gradient magnitude and
its per-cell geodesic area in square meters, as produced by
ee.Image.pixelArea in ENRICHMENT.js line 79. -/
structure Cell where
  mag : ℚ
  area : ℚ

/-- Nearest-rank model of ee.Reducer.percentile over the valid magnitudes of
the region: the sobelThr computation of ENRICHMENT.js lines 64 to 70 and
SOBEL.js lines 33 to 39.  On an empty region the reducer yields no value and
the script would fault downstream; the model returns 0 there, a case no
claim depends on. -/
def sobelThr (vs : List ℚ) (p : ℕ) : ℚ :=
  let s := List.insertionSort (· ≤ ·) vs
  s.getD (min (s.length - 1) (p * s.length / 100)) 0

/-- Magnitude list of a cell list. -/
def mags (cells : List Cell) : List ℚ := cells.map Cell.mag

/-- The zone mask of ENRICHMENT.js line 73 and SOBEL.js line 42: a cell is
in the top zone when its magnitude is at least the percentile threshold
(the gte call). -/
def inZone (cells : List Cell) (p : ℕ) (c : Cell) : Bool :=
  sobelThr (mags cells) p ≤ c.mag

/-- Square meters to square kilometers, the divide by 1e6 in ENRICHMENT.js. -/
def kmsq (x : ℚ) : ℚ := x / 1000000

/-- Total region area in square kilometers, A_total of ENRICHMENT.js
lines 80 to 82. -/
def A_total (cells : List Cell) : ℚ := kmsq (cells.map Cell.area).sum

/-- Masked zone area in square kilometers at percentile p, A_top of
ENRICHMENT.js lines 84 to 86, recomputed identically per percentile at
lines 232 to 234 of the trade-off loop. -/
def A_top (cells : List Cell) (p : ℕ) : ℚ :=
  kmsq ((cells.filter (inZone cells p)).map Cell.area).sum

/-- Zone area share percent: top_share_pct of ENRICHMENT.js line 88 and
A_share of line 235. -/
def top_share_pct (cells : List Cell) (p : ℕ) : ℚ :=
  eeDiv (A_top cells p) (A_total cells) * 100

/-- A deposit feature as the sampler sees it: the Sobel magnitude of the
cell under the feature location, or none when the location falls outside
the raster extent.  Sampling the self-masked zone image (ENRICHMENT.js
lines 94 to 96) yields a sample exactly when the location is in extent and
the magnitude passes the threshold; ee.Algorithms.If(v, 1, 0) on line 97
then turns an absent sample into the flag 0. -/
def insideFlag (thr : ℚ) (d : Option ℚ) : ℕ :=
  match d with
  | none => 0
  | some m => if thr ≤ m then 1 else 0

/-- The inside_top flags of all deposits, depositsFlagged of ENRICHMENT.js
lines 93 to 99; one output record per input feature. -/
def depositsFlagged (cells : List Cell) (p : ℕ) (deps : List (Option ℚ)) : List ℕ :=
  deps.map (insideFlag (sobelThr (mags cells) p))

/-- dep_total of ENRICHMENT.js line 101: the size of the whole flagged
collection. -/
def dep_total (cells : List Cell) (p : ℕ) (deps : List (Option ℚ)) : ℕ :=
  (depositsFlagged cells p deps).length

/-- dep_inside_pct of ENRICHMENT.js lines 102 to 103: the aggregate sum of
the inside_top flags divided by dep_total, times 100. -/
def dep_inside_pct (cells : List Cell) (p : ℕ) (deps : List (Option ℚ)) : ℚ :=
  eeDiv ((depositsFlagged cells p deps).sum : ℚ) (dep_total cells p deps : ℚ) * 100

/-- The percentile used by the single-run analysis, TOP_PCTL of
ENRICHMENT.js line 51. -/
def TOP_PCTL : ℕ := 85

/-- The enrichment index of ENRICHMENT.js line 110. -/
def enrichment (cells : List Cell) (deps : List (Option ℚ)) : ℚ :=
  eeDiv (dep_inside_pct cells TOP_PCTL deps) (top_share_pct cells TOP_PCTL)

/-- One row of the trade-off table of ENRICHMENT.js lines 246 to 252. -/
structure EnrichResult where
  percentile : ℕ
  sobel_thr : ℚ
  coverage_pct : ℚ
  inside_pct : ℚ
  enrichment : ℚ

/-- One full threshold, mask, area and enrichment run at percentile p over
the same base magnitude grid and feature set, the body of the trade-off
loop of ENRICHMENT.js lines 222 to 252. -/
def enrichAt (cells : List Cell) (deps : List (Option ℚ)) (p : ℕ) : EnrichResult :=
  { percentile := p
    sobel_thr := sobelThr (mags cells) p
    coverage_pct := top_share_pct cells p
    inside_pct := dep_inside_pct cells p deps
    enrichment := eeDiv (dep_inside_pct cells p deps) (top_share_pct cells p) }

/-- The percentile list of the trade-off analysis, PCTL_LIST of
ENRICHMENT.js line 220. -/
def PCTL_LIST : List ℕ := [70, 75, 80, 85, 90, 95]

/-- The trade-off result collection of ENRICHMENT.js lines 222 to 253: one
independent run per caller-supplied percentile, in input order. -/
def tradeoffResults (cells : List Cell) (deps : List (Option ℚ)) (ps : List ℕ) :
    List EnrichResult :=
  ps.map (enrichAt cells deps)

/-- The nearest-rank percentile is monotone in the requested percent. -/
lemma sobelThr_mono (vs : List ℚ) {p q : ℕ} (hpq : p ≤ q) :
    sobelThr vs p ≤ sobelThr vs q := by
  unfold sobelThr
  set s := List.insertionSort (· ≤ ·) vs with hs
  rcases Nat.eq_zero_or_pos s.length with h0 | hpos
  · rw [List.length_eq_zero] at h0
    simp [h0]
  · have hip : min (s.length - 1) (p * s.length / 100) < s.length :=
      Nat.lt_of_le_of_lt (min_le_left _ _) (Nat.sub_lt hpos one_pos)
    have hiq : min (s.length - 1) (q * s.length / 100) < s.length :=
      Nat.lt_of_le_of_lt (min_le_left _ _) (Nat.sub_lt hpos one_pos)
    rw [List.getD_eq_get _ _ hip, List.getD_eq_get _ _ hiq]
    have hsorted : s.Sorted (· ≤ ·) := by
      rw [hs]
      exact List.sorted_insertionSort _ vs
    have hidx : min (s.length - 1) (p * s.length / 100) ≤
        min (s.length - 1) (q * s.length / 100) :=
      min_le_min (le_refl _)
        (Nat.div_le_div_right (Nat.mul_le_mul_right _ hpq))
    exact hsorted.rel_get_of_le hidx

/-- Summing a nonnegative cell attribute over a finer filter gives at most
the sum over a coarser filter. -/
lemma sum_area_filter_mono (cells : List Cell) (pr q : Cell → Bool)
    (hA : ∀ c ∈ cells, 0 ≤ c.area) (himp : ∀ c, q c = true → pr c = true) :
    ((cells.filter q).map Cell.area).sum ≤ ((cells.filter pr).map Cell.area).sum := by
  induction cells with
  | nil => simp
  | cons a t ih =>
    have hA' : ∀ c ∈ t, 0 ≤ c.area := fun c hc => hA c (List.mem_cons_of_mem _ hc)
    have ha : 0 ≤ a.area := hA a (List.mem_cons_self _ _)
    have iht := ih hA'
    by_cases hq : q a = true
    · have hp : pr a = true := himp a hq
      simp only [List.filter_cons, hq, hp, if_true, List.map_cons, List.sum_cons]
      linarith
    · by_cases hp : pr a = true
      · simp only [List.filter_cons, hq, hp, if_true, if_false, List.map_cons,
          List.sum_cons, Bool.false_eq_true]
        linarith
      · simp only [List.filter_cons, hq, hp, if_false, Bool.false_eq_true]
        exact iht

/-- The Earth Engine divide with a fixed nonnegative divisor is monotone in
the dividend. -/
lemma eeDiv_mono_num {a b c : ℚ} (hc : 0 ≤ c) (hab : a ≤ b) :
    eeDiv a c ≤ eeDiv b c := by
  unfold eeDiv
  by_cases h : c = 0
  · simp [h]
  · have hcpos : 0 < c := lt_of_le_of_ne hc (Ne.symm h)
    simp only [h, if_false]
    exact (div_le_div_iff_of_pos_right hcpos).mpr hab

/-- Raising the percentile shrinks (weakly) the masked area. -/
lemma A_top_antitone (cells : List Cell) {p q : ℕ}
    (hA : ∀ c ∈ cells, 0 ≤ c.area) (hpq : p ≤ q) :
    A_top cells q ≤ A_top cells p := by
  unfold A_top kmsq
  have hmono := sum_area_filter_mono cells (inZone cells p) (inZone cells q) hA ?_
  · exact div_le_div_of_nonneg_right hmono (by norm_num) |>.trans_eq rfl
  · intro c hc
    have hthr := sobelThr_mono (mags cells) hpq
    unfold inZone at hc ⊢
    rw [decide_eq_true_iff] at hc ⊢
    linarith

/-- Zone share percent is antitone in the percentile. -/
lemma top_share_pct_antitone (cells : List Cell) {p q : ℕ}
    (hA : ∀ c ∈ cells, 0 ≤ c.area) (hpq : p ≤ q) :
    top_share_pct cells q ≤ top_share_pct cells p := by
  unfold top_share_pct
  have h1 := A_top_antitone cells hA hpq
  have h2 : 0 ≤ A_total cells := by
    unfold A_total kmsq
    have hsum : 0 ≤ (cells.map Cell.area).sum := by
      apply List.sum_nonneg
      intro x hx
      rcases List.mem_map.mp hx with ⟨c, hc, rfl⟩
      exact hA c hc
    positivity
  have h3 := eeDiv_mono_num h2 h1
  nlinarith

/-- C5 amended: the masked area and the zone-area share percent are monotone
non-increasing in the percentile threshold, and over the trade-off
percentile list the coverage percents form a non-increasing sequence.  The
strict decrease asserted by the spec fails on grids with tied magnitudes,
where consecutive percentiles produce identical thresholds and masks. -/
theorem C5_monotone_coverage (cells : List Cell) (deps : List (Option ℚ)) {p q : ℕ}
    (hA : ∀ c ∈ cells, 0 ≤ c.area) (hpq : p ≤ q) :
    A_top cells q ≤ A_top cells p ∧
    top_share_pct cells q ≤ top_share_pct cells p ∧
    List.Chain' (fun a b => b ≤ a)
      ((tradeoffResults cells deps PCTL_LIST).map EnrichResult.coverage_pct) := by
  refine ⟨A_top_antitone cells hA hpq, top_share_pct_antitone cells hA hpq, ?_⟩
  have m : ∀ {a b : ℕ}, a ≤ b → top_share_pct cells b ≤ top_share_pct cells a :=
    fun h => top_share_pct_antitone cells hA h
  simp only [tradeoffResults, PCTL_LIST, List.map_cons, List.map_nil,
    List.chain'_cons, List.chain'_singleton, enrichAt, and_true]
  exact ⟨m (by norm_num), m (by norm_num), m (by norm_num), m (by norm_num),
    m (by norm_num)⟩

/-- Witness for C5_monotone_coverage at a concrete two-cell grid and the
percentile pair 70 and 85. -/
theorem C5_monotone_coverage_witness :
    (∀ c ∈ [Cell.mk 5 1, Cell.mk 10 1], 0 ≤ c.area) ∧ 70 ≤ 85 ∧
    (A_top [Cell.mk 5 1, Cell.mk 10 1] 85 ≤ A_top [Cell.mk 5 1, Cell.mk 10 1] 70 ∧
     top_share_pct [Cell.mk 5 1, Cell.mk 10 1] 85 ≤
       top_share_pct [Cell.mk 5 1, Cell.mk 10 1] 70 ∧
     List.Chain' (fun a b => b ≤ a)
       ((tradeoffResults [Cell.mk 5 1, Cell.mk 10 1] [] PCTL_LIST).map
         EnrichResult.coverage_pct)) :=
  ⟨by decide, by decide,
    C5_monotone_coverage [Cell.mk 5 1, Cell.mk 10 1] [] (by decide) (by decide)⟩

/-- Counterexample to C5 as stated: on a constant magnitude grid every
percentile of the trade-off list yields the same threshold and a
full-coverage mask, so the zone-area share sequence is constant at 100 and
not strictly decreasing. -/
theorem C5_counterexample :
    ((tradeoffResults [Cell.mk 5 1, Cell.mk 5 1] [] PCTL_LIST).map
        EnrichResult.coverage_pct) = [100, 100, 100, 100, 100, 100] ∧
    ¬ List.Chain' (fun a b : ℚ => b < a)
      ((tradeoffResults [Cell.mk 5 1, Cell.mk 5 1] [] PCTL_LIST).map
        EnrichResult.coverage_pct) := by
  have h : ((tradeoffResults [Cell.mk 5 1, Cell.mk 5 1] [] PCTL_LIST).map
      EnrichResult.coverage_pct) = [100, 100, 100, 100, 100, 100] := by
    norm_num [tradeoffResults, PCTL_LIST, enrichAt, top_share_pct, A_top, A_total,
      inZone, mags, sobelThr, kmsq, eeDiv, List.insertionSort, List.orderedInsert,
      List.filter]
  refine ⟨h, ?_⟩
  rw [h]
  simp [List.chain'_cons]

/-- C1 amended: the flagged deposit collection retains one record per input
feature, but an out-of-coverage feature is coerced to the flag inside_top
equal to 0, with no distinct marker, and the dep_inside_pct aggregate keeps
every feature, out-of-coverage ones included, in its denominator. -/
theorem C1_out_of_coverage (cells : List Cell) (p : ℕ) (deps : List (Option ℚ)) :
    (depositsFlagged cells p deps).length = deps.length ∧
    dep_total cells p deps = deps.length ∧
    insideFlag (sobelThr (mags cells) p) none = 0 ∧
    dep_inside_pct cells p deps =
      eeDiv ((depositsFlagged cells p deps).sum : ℚ) (deps.length : ℚ) * 100 := by
  refine ⟨List.length_map _ _, ?_, rfl, ?_⟩
  · unfold dep_total depositsFlagged
    exact List.length_map _ _
  · unfold dep_inside_pct dep_total depositsFlagged
    rw [List.length_map]

/-- Counterexample to C1 as stated: with threshold 10, an out-of-coverage
deposit (none) and an in-coverage deposit outside the zone (magnitude 0)
receive the identical flag 0, the out-of-coverage feature is counted in the
dep_total denominator, and dep_inside_pct treats it exactly as an
insideZone-false feature. -/
theorem C1_counterexample :
    depositsFlagged [Cell.mk 0 1, Cell.mk 10 1] 85 [none, some 0] = [0, 0] ∧
    dep_total [Cell.mk 0 1, Cell.mk 10 1] 85 [none, some 0] = 2 ∧
    insideFlag (sobelThr (mags [Cell.mk 0 1, Cell.mk 10 1]) 85) none =
      insideFlag (sobelThr (mags [Cell.mk 0 1, Cell.mk 10 1]) 85) (some 0) ∧
    dep_inside_pct [Cell.mk 0 1, Cell.mk 10 1] 85 [none, some 0] = 0 := by
  refine ⟨by decide, by decide, by decide, ?_⟩
  norm_num [dep_inside_pct, dep_total, depositsFlagged, insideFlag, mags, sobelThr,
    eeDiv, List.insertionSort, List.orderedInsert]

/-- C6: the trade-off analysis returns exactly one result per caller
supplied percentile, in input order, each produced by the full independent
threshold, mask and enrichment run against the same base grid and feature
set; and the enrichment index is the percent of features inside the zone
divided by the percent of area inside the zone, both in the single run of
ENRICHMENT.js section 5 and in every trade-off row. -/
theorem C6_tradeoff (cells : List Cell) (deps : List (Option ℚ)) (ps : List ℕ) :
    (tradeoffResults cells deps ps).length = ps.length ∧
    (∀ i : ℕ, (tradeoffResults cells deps ps)[i]? = (ps[i]?).map (enrichAt cells deps)) ∧
    (∀ i : ℕ, ((tradeoffResults cells deps ps)[i]?).map EnrichResult.percentile = ps[i]?) ∧
    (∀ r : ℕ, (enrichAt cells deps r).enrichment =
      eeDiv (dep_inside_pct cells r deps) (top_share_pct cells r)) ∧
    enrichment cells deps = eeDiv (dep_inside_pct cells 85 deps) (top_share_pct cells 85) ∧
    (enrichAt cells deps TOP_PCTL).coverage_pct = top_share_pct cells TOP_PCTL ∧
    (enrichAt cells deps TOP_PCTL).inside_pct = dep_inside_pct cells TOP_PCTL deps ∧
    (enrichAt cells deps TOP_PCTL).enrichment = enrichment cells deps := by
  refine ⟨List.length_map _ _, ?_, ?_, fun r => rfl, rfl, rfl, rfl, rfl⟩
  · intro i
    exact List.getElem?_map _ _ _
  · intro i
    rw [tradeoffResults, List.getElem?_map]
    cases ps[i]? <;> rfl

/-- Orientation image over an explicit cell list: each cell carries its mask
bit and its raw gradient angle in degrees, as on SOBEL.js lines 46 to 47. -/
def gridOris (cells : List (Bool × ℚ)) : List (Option ℚ) :=
  cells.map (fun c => orientationAt c.1 c.2)

/-- The defined orientation values of an orientation grid: the pixels that
survive the updateMask call. -/
def definedOris (g : List (Option ℚ)) : List ℚ := g.filterMap id

/-- One histogram bin feature of SOBEL.js line 61. -/
structure Bin where
  binStart : ℕ
  binEnd : ℕ
  count : ℕ

/-- Count of defined orientation pixels at least binStart and strictly below
binEnd, the masked count reduction of SOBEL.js lines 54 to 60; the
ee.Algorithms.If on line 60 turns an absent count into 0, while the model
count is total and already 0 on an empty selection. -/
def binCount (oris : List ℚ) (s w : ℕ) : ℕ :=
  oris.countP (fun o => decide ((s : ℚ) ≤ o) && decide (o < ((s + w : ℕ) : ℚ)))

/-- The script bin width, BIN_SIZE of SOBEL.js line 19. -/
def BIN_SIZE : ℕ := 15

/-- The manual orientation histogram of SOBEL.js lines 50 to 63, generalized
from the constant BIN_SIZE to any bin width w: the bin start list
ee.List.sequence(0, 180 - w, w) enumerates i times w for i below 180 / w,
and each bin feature carries binStart, binEnd and its pixel count. -/
def histFC (oris : List ℚ) (w : ℕ) : List Bin :=
  (List.range (180 / w)).map
    (fun i => Bin.mk (i * w) (i * w + w) (binCount oris (i * w) w))

/-- Sum of a pointwise sum of two natural maps splits. -/
lemma sum_map_add (l : List ℕ) (f g : ℕ → ℕ) :
    (l.map (fun i => f i + g i)).sum = (l.map f).sum + (l.map g).sum := by
  induction l with
  | nil => simp
  | cons a t ih =>
    simp only [List.map_cons, List.sum_cons, ih]
    omega

/-- Summing an indicator over a list counts the satisfying elements. -/
lemma sum_map_ite_eq_countP (l : List ℕ) (p : ℕ → Bool) :
    (l.map (fun i => if p i then 1 else 0)).sum = l.countP p := by
  induction l with
  | nil => simp
  | cons a t ih =>
    by_cases h : p a <;>
      simp only [List.map_cons, List.sum_cons, List.countP_cons, h, if_true,
        if_false, ih] <;> omega

/-- Every orientation value in the half circle falls in exactly one bin of
the bin start sequence. -/
lemma bin_index_unique {w : ℕ} (hw : 0 < w) (hdvd : w ∣ 180) {o : ℚ}
    (h0 : 0 ≤ o) (h180 : o < 180) :
    (List.range (180 / w)).countP
      (fun i => decide (((i * w : ℕ) : ℚ) ≤ o) &&
        decide (o < ((i * w + w : ℕ) : ℚ))) = 1 := by
  have hwq : (0 : ℚ) < (w : ℚ) := by exact_mod_cast hw
  have hfloor0 : (0 : ℤ) ≤ ⌊o / (w : ℚ)⌋ := Int.floor_nonneg.mpr (by positivity)
  set i0 : ℕ := (⌊o / (w : ℚ)⌋).toNat with hi0
  have hfl : (⌊o / (w : ℚ)⌋ : ℤ) = (i0 : ℤ) := (Int.toNat_of_nonneg hfloor0).symm
  have hiff : ∀ i : ℕ,
      (((i * w : ℕ) : ℚ) ≤ o ∧ o < ((i * w + w : ℕ) : ℚ)) ↔ i = i0 := by
    intro i
    constructor
    · rintro ⟨hle, hlt⟩
      have hle2 : ((i : ℚ)) ≤ o / (w : ℚ) := by
        rw [le_div_iff₀ hwq]
        push_cast at hle ⊢
        linarith
      have hlt2 : o / (w : ℚ) < (i : ℚ) + 1 := by
        rw [div_lt_iff₀ hwq]
        push_cast at hlt ⊢
        linarith
      have : ⌊o / (w : ℚ)⌋ = (i : ℤ) := by
        rw [Int.floor_eq_iff]
        constructor
        · exact_mod_cast hle2
        · push_cast
          exact hlt2
      omega
    · rintro rfl
      have h1 : ((i0 : ℤ) : ℚ) ≤ o / (w : ℚ) := by
        rw [← hfl]
        exact Int.floor_le _
      have h2 : o / (w : ℚ) < ((i0 : ℤ) : ℚ) + 1 := by
        rw [← hfl]
        exact Int.lt_floor_add_one _
      constructor
      · push_cast
        rw [le_div_iff₀ hwq] at h1
        push_cast at h1
        linarith
      · push_cast
        rw [div_lt_iff₀ hwq] at h2
        push_cast at h2
        nlinarith
  have hbound : i0 < 180 / w := by
    have h180w : ((180 / w : ℕ) : ℚ) * (w : ℚ) = 180 := by
      rw [← Nat.cast_mul, Nat.div_mul_cancel hdvd]
      norm_num
    have hlt : o / (w : ℚ) < ((180 / w : ℕ) : ℚ) := by
      rw [div_lt_iff₀ hwq, h180w]
      exact h180
    have : ⌊o / (w : ℚ)⌋ < ((180 / w : ℕ) : ℤ) := Int.floor_lt.mpr (by exact_mod_cast hlt)
    omega
  have hcongr : (List.range (180 / w)).countP
      (fun i => decide (((i * w : ℕ) : ℚ) ≤ o) &&
        decide (o < ((i * w + w : ℕ) : ℚ))) =
      (List.range (180 / w)).countP (fun i => i == i0) := by
    apply List.countP_congr
    intro a _
    simp only [Bool.and_eq_true, decide_eq_true_eq, beq_iff_eq]
    exact hiff a
  rw [hcongr]
  exact List.count_eq_one_of_mem (List.nodup_range _) (List.mem_range.mpr hbound)

/-- All bin counts over the half circle sum to the number of values. -/
lemma sum_binCounts {w : ℕ} (hw : 0 < w) (hdvd : w ∣ 180) (l : List ℚ)
    (hl : ∀ o ∈ l, 0 ≤ o ∧ o < 180) :
    ((List.range (180 / w)).map (fun i => binCount l (i * w) w)).sum = l.length := by
  induction l with
  | nil => simp [binCount]
  | cons a t ih =>
    have ha := hl a (List.mem_cons_self _ _)
    have ht : ∀ o ∈ t, 0 ≤ o ∧ o < 180 := fun o ho => hl o (List.mem_cons_of_mem _ ho)
    have hsplit : ((List.range (180 / w)).map (fun i => binCount (a :: t) (i * w) w)).sum =
        ((List.range (180 / w)).map (fun i => binCount t (i * w) w)).sum +
        ((List.range (180 / w)).map (fun i =>
          if (decide (((i * w : ℕ) : ℚ) ≤ a) && decide (a < ((i * w + w : ℕ) : ℚ)))
          then 1 else 0)).sum := by
      rw [← sum_map_add]
      apply congrArg
      apply List.map_congr_left
      intro i _
      simp only [binCount, List.countP_cons]
    rw [hsplit, ih ht, sum_map_ite_eq_countP, bin_index_unique hw hdvd ha.1 ha.2,
      List.length_cons]

/-- Every defined orientation of an orientation grid lies in the half
circle. -/
lemma definedOris_range (cells : List (Bool × ℚ)) :
    ∀ o ∈ definedOris (gridOris cells), 0 ≤ o ∧ o < 180 := by
  intro o ho
  unfold definedOris gridOris at ho
  rw [List.mem_filterMap] at ho
  rcases ho with ⟨x, hx, hid⟩
  rcases List.mem_map.mp hx with ⟨c, _, rfl⟩
  unfold orientationAt at hid
  by_cases hm : c.1
  · simp only [hm, if_true, id, Option.some_inj] at hid
    rw [← hid]
    exact ⟨fmod_nonneg _ (by norm_num), fmod_lt _ (by norm_num)⟩
  · simp [hm] at hid

/-- C7: for any mask and any bin width dividing 180, the orientation
histogram has one bin per width step, ordered by ascending binStart with
binEnd equal to binStart plus the width, empty bins present with count 0
since every bin of the start sequence is materialized with a total count,
and the bin counts sum exactly to the number of masked cells with a defined
orientation. -/
theorem C7_histogram (cells : List (Bool × ℚ)) (w : ℕ) (hw : 0 < w) (hdvd : w ∣ 180) :
    (histFC (definedOris (gridOris cells)) w).length = 180 / w ∧
    (∀ i : ℕ, ∀ hi : i < (histFC (definedOris (gridOris cells)) w).length,
      ((histFC (definedOris (gridOris cells)) w).get ⟨i, hi⟩).binStart = i * w ∧
      ((histFC (definedOris (gridOris cells)) w).get ⟨i, hi⟩).binEnd = i * w + w) ∧
    (∀ i j : ℕ, ∀ hi : i < (histFC (definedOris (gridOris cells)) w).length,
      ∀ hj : j < (histFC (definedOris (gridOris cells)) w).length, i < j →
      ((histFC (definedOris (gridOris cells)) w).get ⟨i, hi⟩).binStart <
        ((histFC (definedOris (gridOris cells)) w).get ⟨j, hj⟩).binStart) ∧
    ((histFC (definedOris (gridOris cells)) w).map Bin.count).sum =
      (definedOris (gridOris cells)).length := by
  have hlen : (histFC (definedOris (gridOris cells)) w).length = 180 / w := by
    unfold histFC
    rw [List.length_map, List.length_range]
  have hget : ∀ i : ℕ, ∀ hi : i < (histFC (definedOris (gridOris cells)) w).length,
      (histFC (definedOris (gridOris cells)) w).get ⟨i, hi⟩ =
        Bin.mk (i * w) (i * w + w) (binCount (definedOris (gridOris cells)) (i * w) w) := by
    intro i hi
    unfold histFC at hi ⊢
    rw [List.get_map]
    congr 1 <;> rw [List.get_range]
  refine ⟨hlen, ?_, ?_, ?_⟩
  · intro i hi
    rw [hget i hi]
    exact ⟨rfl, rfl⟩
  · intro i j hi hj hij
    rw [hget i hi, hget j hj]
    exact (Nat.mul_lt_mul_right hw).mpr hij
  · unfold histFC
    rw [List.map_map]
    exact sum_binCounts hw hdvd _ (definedOris_range cells)

/-- Witness for C7_histogram: the script bin width 15 on a small concrete
grid with one masked and one unmasked cell. -/
theorem C7_histogram_witness :
    0 < BIN_SIZE ∧ BIN_SIZE ∣ 180 ∧
    ((histFC (definedOris (gridOris [(true, 10), (false, 40)])) BIN_SIZE).map
      Bin.count).sum =
      (definedOris (gridOris [(true, 10), (false, 40)])).length :=
  ⟨by decide, by decide,
    (C7_histogram [(true, 10), (false, 40)] BIN_SIZE (by decide) (by decide)).2.2.2⟩

/-- One raster cell for the overlap validation of SOBEL.js section 6: its
geodesic pixel area in square meters, whether it lies in the AOI analysis
region, whether it is in the Sobel top zone mask, and whether it lies within
the fault geometry buffered by a given distance in meters, before the
intersection with the AOI. -/
structure RCell where
  area : ℚ
  aoi : Bool
  mask : Bool
  buf : ℚ → Bool

/-- The buffered reference geometry after intersection with the analysis
region, bufGeom of SOBEL.js line 80: the buffer membership and the AOI
membership are both required before any area is measured. -/
def bufGeom (b : ℚ) (c : RCell) : Bool := c.buf b && c.aoi

/-- Zone area in square kilometers, A_sobel of SOBEL.js lines 82 to 88:
pixel area summed over the masked cells of the AOI. -/
def A_sobel (cells : List RCell) : ℚ :=
  kmsq ((cells.filter (fun c => c.aoi && c.mask)).map RCell.area).sum

/-- Buffered reference area in square kilometers, A_fault of SOBEL.js
lines 90 to 96: pixel area summed over the intersected buffer geometry. -/
def A_fault (cells : List RCell) (b : ℚ) : ℚ :=
  kmsq ((cells.filter (bufGeom b)).map RCell.area).sum

/-- Intersection area in square kilometers, A_intersect of SOBEL.js
lines 98 to 104: masked pixel area summed over the intersected buffer
geometry. -/
def A_intersect (cells : List RCell) (b : ℚ) : ℚ :=
  kmsq ((cells.filter (fun c => bufGeom b c && c.mask)).map RCell.area).sum

/-- precision of SOBEL.js line 106, reported in percent. -/
def precision_pct (cells : List RCell) (b : ℚ) : ℚ :=
  eeDiv (A_intersect cells b) (A_sobel cells) * 100

/-- recall of SOBEL.js line 107, reported in percent. -/
def recall_pct (cells : List RCell) (b : ℚ) : ℚ :=
  eeDiv (A_intersect cells b) (A_fault cells b) * 100

/-- f1 of SOBEL.js line 108: precision times recall times two, divided by
precision plus recall under the zero-divisor-to-zero divide. -/
def f1_pct (cells : List RCell) (b : ℚ) : ℚ :=
  eeDiv (precision_pct cells b * recall_pct cells b * 2)
    (precision_pct cells b + recall_pct cells b)

/-- One row of the overlap metrics table of SOBEL.js lines 110 to 118. -/
structure OverlapResult where
  buffer_km : ℚ
  area_sobel_km2 : ℚ
  area_fault_km2 : ℚ
  area_intersect_km2 : ℚ
  precision_pct : ℚ
  recall_pct : ℚ
  f1_pct : ℚ

/-- The overlapMetrics function of SOBEL.js lines 79 to 119. -/
def overlapMetrics (cells : List RCell) (b : ℚ) : OverlapResult :=
  { buffer_km := b / 1000
    area_sobel_km2 := A_sobel cells
    area_fault_km2 := A_fault cells b
    area_intersect_km2 := A_intersect cells b
    precision_pct := precision_pct cells b
    recall_pct := recall_pct cells b
    f1_pct := f1_pct cells b }

/-- The buffer distance list of SOBEL.js line 18, in meters. -/
def BUF_LIST_M : List ℚ := [1000, 3000, 6000]

/-- The validation table of SOBEL.js line 121: one metrics row per buffer
distance. -/
def metricsFC (cells : List RCell) : List OverlapResult :=
  BUF_LIST_M.map (overlapMetrics cells)

/-- Summing a nonnegative attribute over a finer filter gives at most the
sum over a coarser filter. -/
lemma sum_map_filter_mono {α : Type} (l : List α) (f : α → ℚ) (pr q : α → Bool)
    (hf : ∀ a ∈ l, 0 ≤ f a) (himp : ∀ a, q a = true → pr a = true) :
    ((l.filter q).map f).sum ≤ ((l.filter pr).map f).sum := by
  induction l with
  | nil => simp
  | cons a t ih =>
    have hf' : ∀ x ∈ t, 0 ≤ f x := fun x hx => hf x (List.mem_cons_of_mem _ hx)
    have ha : 0 ≤ f a := hf a (List.mem_cons_self _ _)
    have iht := ih hf'
    by_cases hq : q a = true
    · have hp : pr a = true := himp a hq
      simp only [List.filter_cons, hq, hp, if_true, List.map_cons, List.sum_cons]
      linarith
    · by_cases hp : pr a = true
      · simp only [List.filter_cons, hq, hp, if_true, if_false, List.map_cons,
          List.sum_cons, Bool.false_eq_true]
        linarith
      · simp only [List.filter_cons, hq, hp, if_false, Bool.false_eq_true]
        exact iht

/-- C3 amended: whenever precision plus recall is zero, the f1 value is
reported as zero, not as an undefined marker, because the Earth Engine
divide returns zero on a zero divisor; no division fault propagates since
every metric is a total value. -/
theorem C3_f1_zero (cells : List RCell) (b : ℚ)
    (h : precision_pct cells b + recall_pct cells b = 0) :
    (overlapMetrics cells b).f1_pct = 0 := by
  show f1_pct cells b = 0
  unfold f1_pct
  rw [h]
  simp [eeDiv]

/-- Witness for C3_f1_zero: a region whose single masked cell lies outside
the buffered geometry, so the intersection area, precision and recall are
all zero. -/
theorem C3_f1_zero_witness :
    precision_pct [RCell.mk 1000000 true true (fun _m => false),
        RCell.mk 1000000 true false (fun _m => true)] 1000 +
      recall_pct [RCell.mk 1000000 true true (fun _m => false),
        RCell.mk 1000000 true false (fun _m => true)] 1000 = 0 ∧
    (overlapMetrics [RCell.mk 1000000 true true (fun _m => false),
        RCell.mk 1000000 true false (fun _m => true)] 1000).f1_pct = 0 := by
  have h : precision_pct [RCell.mk 1000000 true true (fun _m => false),
        RCell.mk 1000000 true false (fun _m => true)] 1000 +
      recall_pct [RCell.mk 1000000 true true (fun _m => false),
        RCell.mk 1000000 true false (fun _m => true)] 1000 = 0 := by
    norm_num [precision_pct, recall_pct, A_intersect, A_fault, A_sobel, bufGeom,
      kmsq, eeDiv, List.filter]
  exact ⟨h, C3_f1_zero _ _ h⟩

/-- Counterexample to C3 as stated: at a concrete input with precision plus
recall equal to zero, the reported f1 is the number zero, not an undefined
or absent value. -/
theorem C3_counterexample :
    precision_pct [RCell.mk 1000000 true true (fun _m => false),
        RCell.mk 3000000 true false (fun _m => true)] 1000 +
      recall_pct [RCell.mk 1000000 true true (fun _m => false),
        RCell.mk 3000000 true false (fun _m => true)] 1000 = 0 ∧
    (overlapMetrics [RCell.mk 1000000 true true (fun _m => false),
        RCell.mk 3000000 true false (fun _m => true)] 1000).f1_pct = 0 := by
  constructor
  · norm_num [precision_pct, recall_pct, A_intersect, A_fault, A_sobel, bufGeom,
      kmsq, eeDiv, List.filter]
  · show f1_pct _ _ = 0
    norm_num [f1_pct, precision_pct, recall_pct, A_intersect, A_fault, A_sobel,
      bufGeom, kmsq, eeDiv, List.filter]

/-- C8 amended: for every buffer distance the buffered reference geometry is
intersected with the analysis region before any area computation, so the
reference buffer area never exceeds the region area; precision and recall
are the intersection-to-zone and intersection-to-buffer area ratios scaled
to percent, and f1 is two times precision times recall over precision plus
recall applied to those percent values. -/
theorem C8_overlap (cells : List RCell) (b : ℚ) (hA : ∀ c ∈ cells, 0 ≤ c.area) :
    (overlapMetrics cells b).area_fault_km2 =
      kmsq ((cells.filter (fun c => c.buf b && c.aoi)).map RCell.area).sum ∧
    (overlapMetrics cells b).area_fault_km2 ≤
      kmsq ((cells.filter RCell.aoi).map RCell.area).sum ∧
    (A_sobel cells ≠ 0 → (overlapMetrics cells b).precision_pct =
      (overlapMetrics cells b).area_intersect_km2 /
        (overlapMetrics cells b).area_sobel_km2 * 100) ∧
    (A_fault cells b ≠ 0 → (overlapMetrics cells b).recall_pct =
      (overlapMetrics cells b).area_intersect_km2 /
        (overlapMetrics cells b).area_fault_km2 * 100) ∧
    (overlapMetrics cells b).f1_pct =
      eeDiv (2 * (overlapMetrics cells b).precision_pct *
          (overlapMetrics cells b).recall_pct)
        ((overlapMetrics cells b).precision_pct +
          (overlapMetrics cells b).recall_pct) := by
  refine ⟨rfl, ?_, ?_, ?_, ?_⟩
  · show A_fault cells b ≤ _
    unfold A_fault kmsq
    have hmono := sum_map_filter_mono cells RCell.area RCell.aoi (bufGeom b) hA
      (fun c hc => (Bool.and_eq_true _ _ |>.mp hc).2)
    exact div_le_div_of_nonneg_right hmono (by norm_num) |>.trans_eq rfl
  · intro hz
    show precision_pct cells b = A_intersect cells b / A_sobel cells * 100
    unfold precision_pct
    rw [eeDiv_eq_div]
  · intro hz
    show recall_pct cells b = A_intersect cells b / A_fault cells b * 100
    unfold recall_pct
    rw [eeDiv_eq_div]
  · show f1_pct cells b = _
    unfold f1_pct
    have hc : precision_pct cells b * recall_pct cells b * 2 =
        2 * precision_pct cells b * recall_pct cells b := by ring
    rw [hc]
    rfl

/-- Witness for C8_overlap on a concrete two-cell region with nonzero zone
and buffer areas. -/
theorem C8_overlap_witness :
    (∀ c ∈ [RCell.mk 1000000 true true (fun _m => true),
        RCell.mk 1000000 true true (fun _m => false)], 0 ≤ c.area) ∧
    A_sobel [RCell.mk 1000000 true true (fun _m => true),
        RCell.mk 1000000 true true (fun _m => false)] ≠ 0 ∧
    (overlapMetrics [RCell.mk 1000000 true true (fun _m => true),
        RCell.mk 1000000 true true (fun _m => false)] 1000).precision_pct =
      (overlapMetrics [RCell.mk 1000000 true true (fun _m => true),
          RCell.mk 1000000 true true (fun _m => false)] 1000).area_intersect_km2 /
        (overlapMetrics [RCell.mk 1000000 true true (fun _m => true),
            RCell.mk 1000000 true true (fun _m => false)] 1000).area_sobel_km2 * 100 := by
  have hA : ∀ c ∈ [RCell.mk 1000000 true true (fun _m => true),
      RCell.mk 1000000 true true (fun _m => false)], 0 ≤ c.area := by
    intro c hc
    rcases List.mem_cons.mp hc with h | h
    · rw [h]; norm_num
    · rcases List.mem_cons.mp h with h2 | h2
      · rw [h2]; norm_num
      · simp at h2
  have hz : A_sobel [RCell.mk 1000000 true true (fun _m => true),
      RCell.mk 1000000 true true (fun _m => false)] ≠ 0 := by
    norm_num [A_sobel, kmsq, List.filter]
  exact ⟨hA, hz,
    (C8_overlap [RCell.mk 1000000 true true (fun _m => true),
      RCell.mk 1000000 true true (fun _m => false)] 1000 hA).2.2.1 hz⟩

/-- Counterexample to C8 as stated: on a concrete region the reported
precision is the percent value 50, not the bare ratio of intersection area
to zone area, which is one half. -/
theorem C8_counterexample :
    (overlapMetrics [RCell.mk 1000000 true true (fun _m => true),
        RCell.mk 1000000 true true (fun _m => false)] 2000).precision_pct ≠
      (overlapMetrics [RCell.mk 1000000 true true (fun _m => true),
          RCell.mk 1000000 true true (fun _m => false)] 2000).area_intersect_km2 /
        (overlapMetrics [RCell.mk 1000000 true true (fun _m => true),
            RCell.mk 1000000 true true (fun _m => false)] 2000).area_sobel_km2 := by
  show precision_pct _ _ ≠ A_intersect _ _ / A_sobel _
  norm_num [precision_pct, A_intersect, A_sobel, bufGeom, kmsq, eeDiv, List.filter]

/-- SOBI.js line 15: the fixed absolute threshold 23.9. -/
def sobiThreshold : ℚ := 239 / 10

/-- The zone mask stage of SOBI.js lines 12 to 15 applied to a gradient
value list: gradient strictly greater than the fixed threshold. -/
def sobiZoneMask (g : List ℚ) : List Bool := g.map (fun v => sobiThreshold < v)

/-- The zone mask stage of SOBEL.js lines 33 to 42 applied to a gradient
magnitude list: magnitude at least the adaptive 85th percentile
threshold. -/
def sobelZoneMask (g : List ℚ) : List Bool := g.map (fun v => sobelThr g 85 ≤ v)

/-- C9 amended: the two script versions are not configuration variants of
one algorithm: even when fed the identical gradient field, the fixed
absolute strict threshold of SOBI.js and the adaptive percentile threshold
of SOBEL.js produce different zone masks on some inputs. -/
theorem C9_not_config_variants : ∃ g : List ℚ, sobiZoneMask g ≠ sobelZoneMask g := by
  refine ⟨[1, 2], ?_⟩
  have h1 : sobiZoneMask [1, 2] = [false, false] := by
    norm_num [sobiZoneMask, sobiThreshold]
  have h2 : sobelZoneMask [1, 2] = [false, true] := by
    norm_num [sobelZoneMask, sobelThr, List.insertionSort, List.orderedInsert]
  rw [h1, h2]
  simp

/-- Counterexample to C9 as stated: on the concrete gradient field with
values 1 and 2, SOBI.js masks no cell while SOBEL.js masks the top cell, so
the two versions do not produce the same zone mask for the same input. -/
theorem C9_counterexample : sobiZoneMask [1, 2] ≠ sobelZoneMask [1, 2] := by
  have h1 : sobiZoneMask [1, 2] = [false, false] := by
    norm_num [sobiZoneMask, sobiThreshold]
  have h2 : sobelZoneMask [1, 2] = [false, true] := by
    norm_num [sobelZoneMask, sobelThr, List.insertionSort, List.orderedInsert]
  rw [h1, h2]
  simp

/-- A pixel coordinate of the raster grid. -/
abbrev Coord := ℤ × ℤ

/-- Squared Euclidean distance between two pixel centers, in pixel units. -/
def sqDist (p q : Coord) : ℕ :=
  (p.1 - q.1).natAbs ^ 2 + (p.2 - q.2).natAbs ^ 2

/-- Model of ee.Image.fastDistanceTransform(n): per pixel, the squared
distance in pixels to the nearest non-zero pixel of the input image, here
given by its list of non-zero pixel coordinates, computed within the
n-pixel neighborhood and saturated at n squared; with no non-zero pixel in
reach the saturation value is also returned. -/
def fdtSq (targets : List Coord) (n : ℕ) (p : Coord) : ℕ :=
  (targets.map (sqDist p)).foldr min (n ^ 2)

/-- Whether a pixel is a non-zero pixel of the unmasked zone image
sobelMask.unmask(0) of ENRICHMENT.js lines 115 and 172: it must lie in the
raster extent and pass the mask. -/
def classAt (ext : List Coord) (mask : Coord → Bool) (p : Coord) : Bool :=
  decide (p ∈ ext) && mask p

/-- The non-zero pixels of the unmasked zone image: the in-extent masked
cells, the inside image of ENRICHMENT.js line 172. -/
def insideCells (ext : List Coord) (mask : Coord → Bool) : List Coord :=
  ext.filter mask

/-- The non-zero pixels of the background image of ENRICHMENT.js line 115,
equal to the outside image of line 168: one minus the unmasked zone image
is 1 on every pixel that is not an in-extent zone pixel.  The finite world
list stands for the sampled portion of the plane and contains the extent. -/
def bgCells (world ext : List Coord) (mask : Coord → Bool) : List Coord :=
  world.filter (fun c => !classAt ext mask c)

/-- The nominal scale in meters, SCALE of ENRICHMENT.js line 49. -/
def SCALE : ℚ := 90

/-- dist_m of ENRICHMENT.js line 116: square root of the distance transform
of the background image with neighborhood 30, scaled to meters. -/
noncomputable def dist_m (world ext : List Coord) (mask : Coord → Bool) (p : Coord) : ℝ :=
  Real.sqrt (fdtSq (bgCells world ext mask) 30 p) * (SCALE : ℝ)

/-- distInside of ENRICHMENT.js lines 172 to 173: square root of the
distance transform of the inside image with neighborhood 1, scaled to
meters.  The transform measures the distance to the nearest non-zero pixel
of its input, hence to the nearest zone pixel. -/
noncomputable def distInside_m (ext : List Coord) (mask : Coord → Bool) (p : Coord) : ℝ :=
  Real.sqrt (fdtSq (insideCells ext mask) 1 p) * (SCALE : ℝ)

/-- distOutside of ENRICHMENT.js lines 168 to 169: square root of the
distance transform of the outside image with neighborhood 1, scaled to
meters; it measures the distance to the nearest background pixel. -/
noncomputable def distOutside_m (world ext : List Coord) (mask : Coord → Bool) (p : Coord) : ℝ :=
  Real.sqrt (fdtSq (bgCells world ext mask) 1 p) * (SCALE : ℝ)

/-- distEdge_m of ENRICHMENT.js lines 176 to 177: the pixelwise maximum of
the two one-pixel-neighborhood transforms. -/
noncomputable def distEdge_m (world ext : List Coord) (mask : Coord → Bool) (p : Coord) : ℝ :=
  max (distInside_m ext mask p) (distOutside_m world ext mask p)

/-- Whether a pixel of the world has an opposite-class pixel among its eight
neighbors, the boundary-adjacency notion of the claim on edge distances. -/
def boundaryAdjacent (world ext : List Coord) (mask : Coord → Bool) (p : Coord) : Bool :=
  world.any (fun q => decide (sqDist p q ≤ 2) && decide (sqDist p q ≠ 0) &&
    (classAt ext mask q != classAt ext mask p))

/-- A fold by min is at most any list element. -/
lemma foldr_min_le {l : List ℕ} {c : ℕ} {a : ℕ} (ha : a ∈ l) :
    l.foldr min c ≤ a := by
  induction l with
  | nil => cases ha
  | cons b t ih =>
    rcases List.mem_cons.mp ha with h | h
    · rw [h]
      exact min_le_left _ _
    · exact le_trans (min_le_right _ _) (ih h)

/-- A fold by min is at most its initial value. -/
lemma foldr_min_le_init (l : List ℕ) (c : ℕ) : l.foldr min c ≤ c := by
  induction l with
  | nil => exact le_refl _
  | cons b t ih => exact le_trans (min_le_right _ _) ih

/-- A lower bound of the elements and the initial value bounds a fold by
min. -/
lemma le_foldr_min {l : List ℕ} {c m : ℕ} (h : ∀ a ∈ l, m ≤ a) (hc : m ≤ c) :
    m ≤ l.foldr min c := by
  induction l with
  | nil => exact hc
  | cons b t ih =>
    exact le_min (h b (List.mem_cons_self _ _))
      (ih fun a ha => h a (List.mem_cons_of_mem _ ha))

/-- Two pixels are at squared distance zero exactly when they coincide. -/
lemma sqDist_eq_zero_iff {p q : Coord} : sqDist p q = 0 ↔ p = q := by
  unfold sqDist
  rw [Nat.add_eq_zero]
  constructor
  · rintro ⟨h1, h2⟩
    have e1 : (p.1 - q.1).natAbs = 0 := by
      have := pow_eq_zero_iff (n := 2) (by norm_num) |>.mp h1
      exact this
    have e2 : (p.2 - q.2).natAbs = 0 := by
      have := pow_eq_zero_iff (n := 2) (by norm_num) |>.mp h2
      exact this
    rw [Int.natAbs_eq_zero, sub_eq_zero] at e1 e2
    exact Prod.ext e1 e2
  · rintro rfl
    simp

/-- The distance transform vanishes on a non-zero input pixel. -/
lemma fdtSq_eq_zero_of_mem {targets : List Coord} {n : ℕ} {p : Coord}
    (hp : p ∈ targets) : fdtSq targets n p = 0 := by
  have hmem : sqDist p p ∈ targets.map (sqDist p) := List.mem_map_of_mem _ hp
  have hle : fdtSq targets n p ≤ sqDist p p := foldr_min_le hmem
  have hpp : sqDist p p = 0 := sqDist_eq_zero_iff.mpr rfl
  omega

/-- With neighborhood 1, the distance transform is exactly 1 at every pixel
that is not itself a non-zero input pixel. -/
lemma fdtSq_one_of_not_mem {targets : List Coord} {p : Coord}
    (h : ∀ q ∈ targets, q ≠ p) : fdtSq targets 1 p = 1 := by
  apply le_antisymm
  · have := foldr_min_le_init (targets.map (sqDist p)) (1 ^ 2)
    simpa using this
  · apply le_foldr_min
    · intro a ha
      rcases List.mem_map.mp ha with ⟨q, hq, rfl⟩
      have hne : q ≠ p := h q hq
      have : sqDist p q ≠ 0 := fun hz => hne (sqDist_eq_zero_iff.mp hz).symm
      omega
    · norm_num

/-- C2 amended: under the one-pixel-neighborhood saturated distance
transform of the source, distInside is 0 exactly on the in-extent zone
pixels and 90 meters elsewhere, distOutside is the mirror image, and the
combined edge distance field is the constant 90 meters, one pixel scale, at
every pixel of the world: it is never 0, on boundary-adjacent cells
included, and the zero set claimed by the specification does not exist. -/
theorem C2_distance_fields (world ext : List Coord) (mask : Coord → Bool)
    (p : Coord) (hp : p ∈ world) :
    distInside_m ext mask p = (if classAt ext mask p then 0 else 90) ∧
    distOutside_m world ext mask p = (if classAt ext mask p then 90 else 0) ∧
    distEdge_m world ext mask p = 90 := by
  by_cases h : classAt ext mask p = true
  · have hmem : p ∈ insideCells ext mask := by
      unfold insideCells
      unfold classAt at h
      rcases Bool.and_eq_true _ _ |>.mp h with ⟨h1, h2⟩
      exact List.mem_filter.mpr ⟨of_decide_eq_true h1, h2⟩
    have hin : fdtSq (insideCells ext mask) 1 p = 0 := fdtSq_eq_zero_of_mem hmem
    have hout : fdtSq (bgCells world ext mask) 1 p = 1 := by
      apply fdtSq_one_of_not_mem
      intro q hq hqp
      rcases List.mem_filter.mp hq with ⟨_, hc⟩
      rw [hqp, h] at hc
      simp at hc
    have e1 : distInside_m ext mask p = 0 := by
      unfold distInside_m
      rw [hin]
      simp
    have e2 : distOutside_m world ext mask p = 90 := by
      unfold distOutside_m SCALE
      rw [hout]
      norm_num
    refine ⟨by rw [e1, if_pos h], by rw [e2, if_pos h], ?_⟩
    unfold distEdge_m
    rw [e1, e2]
    norm_num
  · have hmem : p ∈ bgCells world ext mask := by
      unfold bgCells
      refine List.mem_filter.mpr ⟨hp, ?_⟩
      rw [Bool.not_eq_true] at h
      rw [h]
      rfl
    have hout : fdtSq (bgCells world ext mask) 1 p = 0 := fdtSq_eq_zero_of_mem hmem
    have hin : fdtSq (insideCells ext mask) 1 p = 1 := by
      apply fdtSq_one_of_not_mem
      intro q hq hqp
      rcases List.mem_filter.mp hq with ⟨hqe, hqm⟩
      apply h
      rw [← hqp]
      unfold classAt
      rw [Bool.and_eq_true]
      exact ⟨decide_eq_true hqe, hqm⟩
    have e1 : distInside_m ext mask p = 90 := by
      unfold distInside_m SCALE
      rw [hin]
      norm_num
    have e2 : distOutside_m world ext mask p = 0 := by
      unfold distOutside_m
      rw [hout]
      simp
    refine ⟨by rw [e1, if_neg h], by rw [e2, if_neg h], ?_⟩
    unfold distEdge_m
    rw [e1, e2]
    norm_num

/-- Witness for C2_distance_fields at a concrete two-pixel grid, one zone
pixel and one background pixel. -/
theorem C2_distance_fields_witness :
    (((0 : ℤ), (0 : ℤ)) ∈ [((0 : ℤ), (0 : ℤ)), ((1 : ℤ), (0 : ℤ))]) ∧
    (distInside_m [((0 : ℤ), (0 : ℤ)), ((1 : ℤ), (0 : ℤ))]
        (fun c => decide (c = ((0 : ℤ), (0 : ℤ)))) ((0 : ℤ), (0 : ℤ)) =
      (if classAt [((0 : ℤ), (0 : ℤ)), ((1 : ℤ), (0 : ℤ))]
          (fun c => decide (c = ((0 : ℤ), (0 : ℤ)))) ((0 : ℤ), (0 : ℤ)) then 0 else 90) ∧
    distOutside_m [((0 : ℤ), (0 : ℤ)), ((1 : ℤ), (0 : ℤ))]
        [((0 : ℤ), (0 : ℤ)), ((1 : ℤ), (0 : ℤ))]
        (fun c => decide (c = ((0 : ℤ), (0 : ℤ)))) ((0 : ℤ), (0 : ℤ)) =
      (if classAt [((0 : ℤ), (0 : ℤ)), ((1 : ℤ), (0 : ℤ))]
          (fun c => decide (c = ((0 : ℤ), (0 : ℤ)))) ((0 : ℤ), (0 : ℤ)) then 90 else 0) ∧
    distEdge_m [((0 : ℤ), (0 : ℤ)), ((1 : ℤ), (0 : ℤ))]
        [((0 : ℤ), (0 : ℤ)), ((1 : ℤ), (0 : ℤ))]
        (fun c => decide (c = ((0 : ℤ), (0 : ℤ)))) ((0 : ℤ), (0 : ℤ)) = 90) :=
  ⟨by decide,
    C2_distance_fields [((0 : ℤ), (0 : ℤ)), ((1 : ℤ), (0 : ℤ))]
      [((0 : ℤ), (0 : ℤ)), ((1 : ℤ), (0 : ℤ))]
      (fun c => decide (c = ((0 : ℤ), (0 : ℤ)))) ((0 : ℤ), (0 : ℤ)) (by decide)⟩

/-- Counterexample to C2 as stated: on a two-pixel grid with one zone pixel
and one background pixel, both pixels are boundary-adjacent, yet the edge
distance at the zone pixel is 90 meters rather than 0, and distInside at
the pixel where the mask is false is 90 meters rather than 0: the
transforms vanish on their own class, not on the opposite one. -/
theorem C2_counterexample :
    boundaryAdjacent [((0 : ℤ), (0 : ℤ)), ((1 : ℤ), (0 : ℤ))]
      [((0 : ℤ), (0 : ℤ)), ((1 : ℤ), (0 : ℤ))]
      (fun c => decide (c = ((0 : ℤ), (0 : ℤ)))) ((0 : ℤ), (0 : ℤ)) = true ∧
    distEdge_m [((0 : ℤ), (0 : ℤ)), ((1 : ℤ), (0 : ℤ))]
      [((0 : ℤ), (0 : ℤ)), ((1 : ℤ), (0 : ℤ))]
      (fun c => decide (c = ((0 : ℤ), (0 : ℤ)))) ((0 : ℤ), (0 : ℤ)) ≠ 0 ∧
    (fun c : Coord => decide (c = ((0 : ℤ), (0 : ℤ)))) ((1 : ℤ), (0 : ℤ)) = false ∧
    distInside_m [((0 : ℤ), (0 : ℤ)), ((1 : ℤ), (0 : ℤ))]
      (fun c => decide (c = ((0 : ℤ), (0 : ℤ)))) ((1 : ℤ), (0 : ℤ)) ≠ 0 := by
  refine ⟨by decide, ?_, by decide, ?_⟩
  · have hin : fdtSq (insideCells [((0 : ℤ), (0 : ℤ)), ((1 : ℤ), (0 : ℤ))]
        (fun c => decide (c = ((0 : ℤ), (0 : ℤ))))) 1 ((0 : ℤ), (0 : ℤ)) = 0 := by decide
    have hout : fdtSq (bgCells [((0 : ℤ), (0 : ℤ)), ((1 : ℤ), (0 : ℤ))]
        [((0 : ℤ), (0 : ℤ)), ((1 : ℤ), (0 : ℤ))]
        (fun c => decide (c = ((0 : ℤ), (0 : ℤ))))) 1 ((0 : ℤ), (0 : ℤ)) = 1 := by decide
    unfold distEdge_m distInside_m distOutside_m SCALE
    rw [hin, hout]
    norm_num
  · have hin : fdtSq (insideCells [((0 : ℤ), (0 : ℤ)), ((1 : ℤ), (0 : ℤ))]
        (fun c => decide (c = ((0 : ℤ), (0 : ℤ))))) 1 ((1 : ℤ), (0 : ℤ)) = 1 := by decide
    unfold distInside_m SCALE
    rw [hin]
    norm_num

/-- C10: a deposit located at any pixel that is not an in-extent zone pixel
samples a dist_m value of exactly 0, because the distance field is the
transform of the background image, which vanishes on every background
pixel; the exported distance-to-zone field therefore measures distance from
interior zone cells to the background, not distance from outside features
to the zone. -/
theorem C10_outside_deposit_distance_zero (world ext : List Coord)
    (mask : Coord → Bool) (p : Coord) (hp : p ∈ world)
    (hbg : classAt ext mask p = false) :
    dist_m world ext mask p = 0 := by
  have hmem : p ∈ bgCells world ext mask := by
    unfold bgCells
    refine List.mem_filter.mpr ⟨hp, ?_⟩
    rw [hbg]
    rfl
  have h0 : fdtSq (bgCells world ext mask) 30 p = 0 := fdtSq_eq_zero_of_mem hmem
  unfold dist_m
  rw [h0]
  simp

/-- Witness for C10_outside_deposit_distance_zero: a deposit outside the
raster extent, with a trivially full mask on a one-pixel extent. -/
theorem C10_outside_deposit_distance_zero_witness :
    (((1 : ℤ), (0 : ℤ)) ∈ [((0 : ℤ), (0 : ℤ)), ((1 : ℤ), (0 : ℤ))]) ∧
    classAt [((0 : ℤ), (0 : ℤ))] (fun _c => true) ((1 : ℤ), (0 : ℤ)) = false ∧
    dist_m [((0 : ℤ), (0 : ℤ)), ((1 : ℤ), (0 : ℤ))] [((0 : ℤ), (0 : ℤ))]
      (fun _c => true) ((1 : ℤ), (0 : ℤ)) = 0 :=
  ⟨by decide, by decide,
    C10_outside_deposit_distance_zero [((0 : ℤ), (0 : ℤ)), ((1 : ℤ), (0 : ℤ))]
      [((0 : ℤ), (0 : ℤ))] (fun _c => true) ((1 : ℤ), (0 : ℤ)) (by decide) (by decide)⟩

end SobelKZ
